import Mathlib

/-!
Verification of the Action1Corp/Integrations sync connector against its
natural-language specification.

The development shallowly embeds two source files:

* `mapping/deviceMapper.js` — pure name-matching and patch-building logic
  (`normalizeName`, `stripFqdn`, `toCustomKey`, `matchDevices`,
  `buildEndpointPatch`, `mapDevicesToPatches`);
* `sync/syncEngine.js` — the orchestration engine (`normalizeOptions`,
  `runSync` with its per-job and global safety limits, dry-run handling,
  patch application loop and error isolation).

Modelling conventions:

* JavaScript strings are Lean `String`; `String.prototype.trim` is modelled by
  `jsTrim` (drop whitespace characters from both ends, using `Char.isWhitespace`
  as the whitespace class) and `String.prototype.toLowerCase` by a character-wise
  `Char.toLower` map (`lowerStr`).  This restricts attention to the ASCII
  behaviour of the JS functions, which is the relevant fragment for device and
  attribute names.
* JavaScript dynamic values stored in device attributes are the inductive
  `JVal` (`vNull` covers the JS `null`; a missing key of the attribute map
  covers `undefined`; strings, numbers and booleans are explicit).  JS numbers
  are modelled as `Int` (integral values only).
* A JS object used as a string-keyed record is an association list
  `List (String × JVal)` in insertion order; assignment is `objInsert`, which
  replaces in place or appends, exactly like JS property assignment.
* Fallible collaborator calls return `Except String` values; the sync engine's
  effectful collaborators are a deterministic `Env` record of functions, and
  every invocation of the platform patch collaborator is additionally recorded
  in an explicit trace of `PatchCall`s so that temporal claims ("never
  invoked") can be stated.
-/

namespace Sync

/-- JavaScript runtime value stored in a device attribute.  `vNull` models the
JS `null`; a missing attribute (JS `undefined`) is modelled by lookup returning
`none`. -/
inductive JVal where
  | vNull : JVal
  | vStr (s : String) : JVal
  | vNum (n : Int) : JVal
  | vBool (b : Bool) : JVal
  deriving DecidableEq, Repr

/-- List-level trim: drop whitespace from both ends (model of
`String.prototype.trim`). -/
def trimChars (l : List Char) : List Char :=
  ((l.dropWhile Char.isWhitespace).reverse.dropWhile Char.isWhitespace).reverse

/-- Model of the JS `String.prototype.trim`. -/
def jsTrim (s : String) : String :=
  String.mk (trimChars s.toList)

/-- Model of the JS `String.prototype.toLowerCase` (character-wise ASCII). -/
def lowerStr (s : String) : String :=
  String.mk (s.toList.map Char.toLower)

/-- deviceMapper.js `normalizeName` (lines 4-7): trim then case-fold.  The JS
guard for `null`/`undefined` inputs is handled at the call sites, which pass
strings obtained with `|| ''` defaults. -/
def normalizeName (s : String) : String :=
  lowerStr (jsTrim s)

/-- deviceMapper.js `stripFqdn` (lines 9-13): trim, then cut at the first `.`
provided it is not the leading character (JS `dot > 0`). -/
def stripFqdn (name : String) : String :=
  let s := jsTrim name
  let cs := s.toList
  let pre := cs.takeWhile (fun c => c ≠ '.')
  if pre.length = 0 ∨ pre.length = cs.length then s else String.mk pre

/-- deviceMapper.js `normalizeShortName` (lines 15-17). -/
def normalizeShortName (s : String) : String :=
  normalizeName (stripFqdn s)

/-- One managed endpoint of the platform (Endpoint Record).  `device_name` and
`name` may be absent (`none`) or empty, matching the JS falsy fallback chain;
`id` may be absent. -/
structure Endpoint where
  device_name : Option String
  name : Option String
  id : Option String
  deriving DecidableEq, Repr

/-- JS `a || b` on strings: fall through on the falsy empty string. -/
def strOr (a b : String) : String :=
  if a = "" then b else a

/-- deviceMapper.js `getAction1EndpointName` (lines 19-22):
`endpoint.device_name || endpoint.name || ''`. -/
def getAction1EndpointName (ep : Endpoint) : String :=
  strOr (ep.device_name.getD ("")) (ep.name.getD (""))

/-- deviceMapper.js `toCustomKey` (lines 24-28): trim; empty goes to empty;
a name already starting (case-insensitively) with `custom:` is kept, otherwise
the prefix is prepended. -/
def toCustomKey (action1CustomAttribute : String) : String :=
  let raw := jsTrim action1CustomAttribute
  if raw = "" then ("")
  else if ("custom:").toList.isPrefixOf (raw.toList.map Char.toLower) then raw
  else String.mk (("custom:").toList ++ raw.toList)

/-- One directory device record.  `displayName` models the record's
`displayName` property (a string, possibly absent); `attrs` is the remaining
JS object, an association list of enrichment attributes. -/
structure Device where
  displayName : Option String
  attrs : List (String × JVal)
  deriving DecidableEq, Repr

/-- JS property read `entraDevice?.[prop]`: `displayName` is the distinguished
property, other keys are looked up in `attrs`; `none` models `undefined`. -/
def getProp (dev : Device) (k : String) : Option JVal :=
  if k = "displayName" then dev.displayName.map JVal.vStr
  else (dev.attrs.find? (fun p => p.1 = k)).map (fun p => p.2)

/-- Lookup in the full-name endpoint index (deviceMapper.js
`buildEndpointIndex`, lines 30-44): `index.get(key)` returns the endpoints
whose normalized full name is `key`, in input order; keys that normalize to the
empty string are never inserted. -/
def fullIndexGet (endpoints : List Endpoint) (key : String) : List Endpoint :=
  if key = "" then []
  else endpoints.filter (fun ep => normalizeName (getAction1EndpointName ep) = key)

/-- Lookup in the short-name endpoint index (deviceMapper.js
`buildEndpointShortIndex`, lines 46-60). -/
def shortIndexGet (endpoints : List Endpoint) (key : String) : List Endpoint :=
  if key = "" then []
  else endpoints.filter (fun ep => normalizeShortName (getAction1EndpointName ep) = key)

/-- Match type tag: which phase produced the pairing. -/
inductive MatchType where
  | full : MatchType
  | short : MatchType
  deriving DecidableEq, Repr

/-- Ambiguity reason tag. -/
inductive AmbReason where
  | duplicate_full : AmbReason
  | duplicate_short : AmbReason
  deriving DecidableEq, Repr

/-- Entry of the `matched` output bucket. -/
structure MatchedPair where
  entraDevice : Device
  endpoint : Endpoint
  matchType : MatchType
  deriving DecidableEq, Repr

/-- Entry of the `ambiguous` output bucket. -/
structure AmbEntry where
  entraDevice : Device
  candidates : List Endpoint
  reason : AmbReason
  deriving DecidableEq, Repr

/-- The three output buckets of `matchDevices`. -/
structure MatchResult where
  matched : List MatchedPair
  unmatchedEntra : List Device
  ambiguous : List AmbEntry
  deriving DecidableEq, Repr

/-- Classification outcome of one loop iteration of `matchDevices`
(deviceMapper.js lines 71-106). -/
inductive Classification where
  | unmatched : Classification
  | matchedFull (ep : Endpoint) : Classification
  | ambFull (cands : List Endpoint) : Classification
  | matchedShort (ep : Endpoint) : Classification
  | ambShort (cands : List Endpoint) : Classification
  deriving DecidableEq, Repr

/-- The branch structure of the `matchDevices` loop body for one device: empty
normalized name goes unmatched; Phase 1 consults the full-name index (one
candidate matches, two or more are ambiguous, zero falls through); Phase 2
consults the short-name index likewise. -/
def classify (eps : List Endpoint) (dev : Device) : Classification :=
  let entraName := dev.displayName.getD ("")
  let fullKey := normalizeName entraName
  if fullKey = "" then .unmatched
  else
    match fullIndexGet eps fullKey with
    | [] =>
      match shortIndexGet eps (normalizeShortName entraName) with
      | [] => .unmatched
      | [e] => .matchedShort e
      | cs => .ambShort cs
    | [e] => .matchedFull e
    | cs => .ambFull cs

/-- One iteration of the `matchDevices` loop: append the device to the bucket
selected by `classify`. -/
def matchStep (eps : List Endpoint) (acc : MatchResult) (dev : Device) : MatchResult :=
  match classify eps dev with
  | .unmatched =>
      ⟨acc.matched, acc.unmatchedEntra ++ [dev], acc.ambiguous⟩
  | .matchedFull e =>
      ⟨acc.matched ++ [⟨dev, e, .full⟩], acc.unmatchedEntra, acc.ambiguous⟩
  | .ambFull cs =>
      ⟨acc.matched, acc.unmatchedEntra, acc.ambiguous ++ [⟨dev, cs, .duplicate_full⟩]⟩
  | .matchedShort e =>
      ⟨acc.matched ++ [⟨dev, e, .short⟩], acc.unmatchedEntra, acc.ambiguous⟩
  | .ambShort cs =>
      ⟨acc.matched, acc.unmatchedEntra, acc.ambiguous ++ [⟨dev, cs, .duplicate_short⟩]⟩

/-- deviceMapper.js `matchDevices` (lines 63-109). -/
def matchDevices (entraDevices : List Device) (action1Endpoints : List Endpoint) :
    MatchResult :=
  entraDevices.foldl (matchStep action1Endpoints) ⟨[], [], []⟩

/-- JS object assignment `patch[key] = value`: replace the value in place when
the key is already present, otherwise append. -/
def objInsert (obj : List (String × JVal)) (k : String) (v : JVal) :
    List (String × JVal) :=
  if obj.any (fun p => p.1 = k) then
    obj.map (fun p => if p.1 = k then (k, v) else p)
  else obj ++ [(k, v)]

/-- One property mapping; either field may be absent or empty (JS falsy). -/
structure Mapping where
  entraProperty : Option String
  action1CustomAttribute : Option String
  deriving DecidableEq, Repr

/-- JS test `typeof value === 'string' && value.trim() === ''`. -/
def isBlankStr : JVal → Bool
  | JVal.vStr s => jsTrim s = ""
  | _ => false

/-- One iteration of the `buildEndpointPatch` loop (deviceMapper.js lines
117-133): skip falsy mapping fields, skip `null`/`undefined` values, skip
blank strings, skip an empty normalized key, otherwise assign. -/
def patchStep (dev : Device) (patch : List (String × JVal)) (m : Mapping) :
    List (String × JVal) :=
  let entraProp := m.entraProperty.getD ("")
  let action1Attr := m.action1CustomAttribute.getD ("")
  if entraProp = "" ∨ action1Attr = "" then patch
  else
    match getProp dev entraProp with
    | none => patch
    | some JVal.vNull => patch
    | some v =>
      if isBlankStr v then patch
      else
        let key := toCustomKey action1Attr
        if key = "" then patch
        else objInsert patch key v

/-- deviceMapper.js `buildEndpointPatch` (lines 112-136): fold the mappings,
return `none` (JS `null`) when the accumulated patch object is empty. -/
def buildEndpointPatch (entraDevice : Device) (mappings : List Mapping) :
    Option (List (String × JVal)) :=
  let patch := mappings.foldl (patchStep entraDevice) []
  if patch.length > 0 then some patch else none

/-- One planned patch item (deviceMapper.js lines 146-152). -/
structure PatchItem where
  endpointId : Option String
  endpointName : String
  entraName : Option String
  matchType : MatchType
  patch : List (String × JVal)
  deriving DecidableEq, Repr

/-- Result record of `mapDevicesToPatches`. -/
structure MapResult where
  matched : List MatchedPair
  patches : List PatchItem
  unmatchedEntra : List Device
  ambiguous : List AmbEntry
  deriving DecidableEq, Repr

/-- deviceMapper.js `mapDevicesToPatches` (lines 138-156). -/
def mapDevicesToPatches (entraDevices : List Device)
    (action1Endpoints : List Endpoint) (mappings : List Mapping) : MapResult :=
  let r := matchDevices entraDevices action1Endpoints
  let patches := r.matched.filterMap (fun pair =>
    match buildEndpointPatch pair.entraDevice mappings with
    | none => none
    | some patch =>
      some ⟨pair.endpoint.id, getAction1EndpointName pair.endpoint,
            pair.entraDevice.displayName, pair.matchType, patch⟩)
  ⟨r.matched, patches, r.unmatchedEntra, r.ambiguous⟩

/-- The matched-bucket contribution of one device, read off its
classification (used to characterize `matchDevices`). -/
def matchedOf (eps : List Endpoint) (d : Device) : Option MatchedPair :=
  match classify eps d with
  | .matchedFull e => some ⟨d, e, .full⟩
  | .matchedShort e => some ⟨d, e, .short⟩
  | _ => none

/-- The ambiguous-bucket contribution of one device. -/
def ambOf (eps : List Endpoint) (d : Device) : Option AmbEntry :=
  match classify eps d with
  | .ambFull cs => some ⟨d, cs, .duplicate_full⟩
  | .ambShort cs => some ⟨d, cs, .duplicate_short⟩
  | _ => none

/-- Whether one device lands in the unmatched bucket. -/
def isUnmatchedDev (eps : List Endpoint) (d : Device) : Bool :=
  match classify eps d with
  | .unmatched => true
  | _ => false

/-! ### Sync engine (sync/syncEngine.js) -/

/-- Raw `SyncOptions` object passed to `runSync`; `none` models an absent (or,
for the numeric limits, non-finite) field.  JS numbers are restricted to
integral values (`Int`). -/
structure SyncOptionsIn where
  dryRun : Option Bool
  cacheEntraDevices : Option Bool
  maxPatchesPerJob : Option Int
  maxTotalPatches : Option Int
  stopOnJobError : Option Bool
  stopOnPatchError : Option Bool
  endpointPageSize : Option Int
  deriving Repr

/-- Normalized options (syncEngine.js `normalizeOptions` output). -/
structure SyncOptions where
  dryRun : Bool
  cacheEntraDevices : Bool
  maxPatchesPerJob : Int
  maxTotalPatches : Int
  stopOnJobError : Bool
  stopOnPatchError : Bool
  endpointPageSize : Int
  deriving Repr

/-- syncEngine.js `normalizeOptions` (lines 25-35). -/
def normalizeOptions (o : SyncOptionsIn) : SyncOptions :=
  ⟨o.dryRun.getD true, o.cacheEntraDevices.getD true, o.maxPatchesPerJob.getD 50,
   o.maxTotalPatches.getD 200, o.stopOnJobError.getD false,
   o.stopOnPatchError.getD false, o.endpointPageSize.getD 50⟩

/-- One directory tenant (identity and credential identifiers). -/
structure Tenant where
  name : String
  tenantId : String
  clientId : String
  deriving DecidableEq, Repr

/-- One sync job: (tenant, organizationId, mappings) triple. -/
structure SyncJob where
  tenant : Tenant
  organizationId : String
  mappings : List Mapping
  deriving Repr

/-- The effectful collaborators of `runSync`, modelled as pure deterministic
functions; `Except.error` models a thrown/rejected call.  `jobs` is the result
of `getSyncJobs(config)` (a pure flattening of the validated configuration,
`config/helpers.js`, out of the embedded core); `cacheKeyIncludeTenantName`
models the `CACHE_KEY_INCLUDE_TENANT_NAME` environment toggle.  The logger is
omitted: it has no effect on control flow. -/
structure Env where
  jobs : List SyncJob
  getToken : Except String String
  cacheKeyIncludeTenantName : Bool
  listDevices : Tenant → Except String (List Device)
  listEndpoints : String → String → Int → Except String (List Endpoint)
  patchEndpoint : String → String → String → List (String × JVal) → Except String Unit

/-- `\s+` replacement helper: collapse each whitespace run to one `_`
(the `prevWs` flag records whether the previous character was whitespace). -/
def collapseWsAux : Bool → List Char → List Char
  | _, [] => []
  | prevWs, c :: rest =>
    if c.isWhitespace then
      (if prevWs then [] else ['_']) ++ collapseWsAux true rest
    else c :: collapseWsAux false rest

/-- Character class `[a-zA-Z0-9._-]` of the sanitizing regex. -/
def keepSafeChar (c : Char) : Bool :=
  c.isAlpha || c.isDigit || c = '.' || c = '_' || c = '-'

/-- syncEngine.js lines 82-85: trim, replace `\s+` with `_`, drop characters
outside `[a-zA-Z0-9._-]`. -/
def sanitizeTenantName (s : String) : String :=
  String.mk ((collapseWsAux false (jsTrim s).toList).filter keepSafeChar)

/-- Cache key for the per-run Entra device cache (syncEngine.js lines 78-87):
`tenantId:clientId`, optionally suffixed with the sanitized tenant name when
the test-mode environment toggle is set. -/
def tenantCacheKey (env : Env) (t : Tenant) : String :=
  let baseKey := t.tenantId ++ ":" ++ t.clientId
  if env.cacheKeyIncludeTenantName then baseKey ++ ":" ++ sanitizeTenantName t.name
  else baseKey

/-- The per-run device cache: insertion-ordered association list standing for
the JS `Map` (only `get`/`set` are used). -/
abbrev Cache := List (String × List Device)

/-- Step 1 of a job (syncEngine.js lines 70-97): resolve the device list,
either fresh on every job (caching disabled) or through the per-run cache.
Returns the devices together with the possibly-extended cache.  A cached empty
device list is reused (a JS array is truthy even when empty). -/
def fetchDevices (env : Env) (opts : SyncOptions) (cache : Cache) (job : SyncJob) :
    Except String (List Device × Cache) :=
  if opts.cacheEntraDevices then
    let key := tenantCacheKey env job.tenant
    match cache.find? (fun kv => kv.1 = key) with
    | some kv => Except.ok (kv.2, cache)
    | none =>
      match env.listDevices job.tenant with
      | Except.error e => Except.error e
      | Except.ok ds => Except.ok (ds, cache ++ [(key, ds)])
  else
    match env.listDevices job.tenant with
    | Except.error e => Except.error e
    | Except.ok ds => Except.ok (ds, cache)

/-- JS `list.slice(0, n)` for an integer `n`: a negative `n` counts from the
end, and the result is clamped at both bounds. -/
def jsSliceTo {α : Type} (l : List α) (n : Int) : List α :=
  if n < 0 then l.take ((l.length + n).toNat) else l.take n.toNat

/-- Safety-limit enforcement (syncEngine.js lines 117-132): the per-job limit
truncates the planned list and records its reason; the global limit truncates
further to `max 0 (maxTotalPatches - totalApplied)` entries and appends or
sets its reason. -/
def applyLimits (opts : SyncOptions) (totalApplied : Nat) (patches : List PatchItem) :
    List PatchItem × Option String :=
  let step1 : List PatchItem × Option String :=
    if (patches.length : Int) > opts.maxPatchesPerJob then
      (jsSliceTo patches opts.maxPatchesPerJob,
       some (("maxPatchesPerJob=") ++ toString opts.maxPatchesPerJob))
    else (patches, none)
  if (totalApplied : Int) + step1.1.length > opts.maxTotalPatches then
    let allowed : Int := max 0 (opts.maxTotalPatches - totalApplied)
    let limited := match step1.2 with
      | some s => some (s ++ (", maxTotalPatches=") ++ toString opts.maxTotalPatches)
      | none => some (("maxTotalPatches=") ++ toString opts.maxTotalPatches)
    (jsSliceTo step1.1 allowed, limited)
  else step1

/-- Structured per-patch error `{endpointId, error}`. -/
structure PatchError where
  endpointId : Option String
  error : String
  deriving DecidableEq, Repr

/-- One recorded invocation of the platform patch collaborator
(`patchManagedEndpoint`); `ok` tells whether the call succeeded.  This trace is
instrumentation of the embedding, not part of the JS return value. -/
structure PatchCall where
  orgId : String
  endpointId : String
  patch : List (String × JVal)
  ok : Bool
  deriving DecidableEq, Repr

/-- Accumulator of the patch-application loop: applied endpoint ids, structured
patch errors, and the invocation trace. -/
structure ApplyAcc where
  applied : List String
  patchErrors : List PatchError
  calls : List PatchCall
  deriving DecidableEq, Repr

/-- The JS message of the local validation error (syncEngine.js line 150). -/
def invalidPatchMsg : String :=
  "Invalid patch item: missing endpointId or patch object"

/-- Patch-application loop (syncEngine.js lines 147-180), run only when not in
dry-run mode.  A structurally invalid item (falsy `endpointId`; the patch body
of a `PatchItem` is always an object here) raises the local validation error,
caught by the per-patch handler; an empty patch body is skipped silently; a
collaborator failure is recorded; `stopOnPatchError` breaks the loop after a
recorded failure. -/
def applyPatches (env : Env) (opts : SyncOptions) (token : String) (orgId : String) :
    List PatchItem → ApplyAcc → ApplyAcc
  | [], acc => acc
  | p :: rest, acc =>
    if p.endpointId.getD ("") = "" then
      if opts.stopOnPatchError then
        ⟨acc.applied, acc.patchErrors ++ [⟨p.endpointId, invalidPatchMsg⟩], acc.calls⟩
      else applyPatches env opts token orgId rest
        ⟨acc.applied, acc.patchErrors ++ [⟨p.endpointId, invalidPatchMsg⟩], acc.calls⟩
    else if p.patch.length = 0 then
      applyPatches env opts token orgId rest acc
    else
      match env.patchEndpoint token orgId (p.endpointId.getD ("")) p.patch with
      | Except.ok _ =>
        applyPatches env opts token orgId rest
          ⟨acc.applied ++ [p.endpointId.getD ("")], acc.patchErrors,
           acc.calls ++ [⟨orgId, p.endpointId.getD (""), p.patch, true⟩]⟩
      | Except.error msg =>
        if opts.stopOnPatchError then
          ⟨acc.applied, acc.patchErrors ++ [⟨p.endpointId, msg⟩],
           acc.calls ++ [⟨orgId, p.endpointId.getD (""), p.patch, false⟩]⟩
        else applyPatches env opts token orgId rest
          ⟨acc.applied, acc.patchErrors ++ [⟨p.endpointId, msg⟩],
           acc.calls ++ [⟨orgId, p.endpointId.getD (""), p.patch, false⟩]⟩

/-- Successful Job Result (syncEngine.js lines 183-198). -/
structure JobOk where
  tenantName : String
  organizationId : String
  entraDevices : Nat
  action1Endpoints : Nat
  matched : Nat
  unmatchedEntra : Nat
  ambiguous : Nat
  patchesPlanned : Nat
  patchesToProcess : Nat
  patchesApplied : Nat
  patchErrors : List PatchError
  limitedBy : Option String
  dryRun : Bool
  samplePatches : List PatchItem
  deriving DecidableEq, Repr

/-- A Job Result: either the full success record, or the minimal failure record
`{tenantName, organizationId, error, dryRun}` (syncEngine.js lines 207-212). -/
inductive JobResult where
  | ok (r : JobOk) : JobResult
  | failed (tenantName : String) (organizationId : String) (error : String)
      (dryRun : Bool) : JobResult
  deriving DecidableEq, Repr

/-- Mutable state threaded through the job loop: the device cache, the result
list, the two cross-job counters, and the patch-call trace. -/
structure RunState where
  cache : Cache
  jobResults : List JobResult
  totalPlannedPatches : Nat
  totalAppliedPatches : Nat
  patchCalls : List PatchCall

/-- The state after the `catch` branch of a job (syncEngine.js lines 203-218):
only the minimal Job Result `{tenantName, organizationId, error, dryRun}` is
appended; the counters and trace are untouched (the cache may have been
extended by a successful device fetch preceding a failed endpoint listing). -/
def jobFailedState (st : RunState) (job : SyncJob) (msg : String) (dryRun : Bool)
    (cache' : Cache) : RunState :=
  ⟨cache', st.jobResults ++ [.failed job.tenant.name job.organizationId msg dryRun],
   st.totalPlannedPatches, st.totalAppliedPatches, st.patchCalls⟩

/-- The state after a job body that got its devices and endpoints (syncEngine.js
lines 111-201): map to patches, enforce the limits, apply (or skip in dry-run),
append the full Job Result and update the counters and trace.  The JS
per-success increments of `totalAppliedPatches` inside the loop sum to
`applied.length`, added once here; the loop itself never reads the counter. -/
def jobSuccessState (env : Env) (opts : SyncOptions) (token : String) (st : RunState)
    (job : SyncJob) (entraDevices : List Device) (cache' : Cache)
    (endpoints : List Endpoint) : RunState :=
  let mappingResult := mapDevicesToPatches entraDevices endpoints job.mappings
  let planned := mappingResult.patches.length
  let limited := applyLimits opts st.totalAppliedPatches mappingResult.patches
  let applyAcc :=
    if opts.dryRun then (⟨[], [], []⟩ : ApplyAcc)
    else applyPatches env opts token job.organizationId limited.1 ⟨[], [], []⟩
  ⟨cache',
   st.jobResults ++ [.ok
      ⟨job.tenant.name, job.organizationId, entraDevices.length, endpoints.length,
       mappingResult.matched.length, mappingResult.unmatchedEntra.length,
       mappingResult.ambiguous.length, planned, limited.1.length,
       (if opts.dryRun then 0 else applyAcc.applied.length), applyAcc.patchErrors,
       limited.2, opts.dryRun, mappingResult.patches.take 3⟩],
   st.totalPlannedPatches + planned,
   st.totalAppliedPatches + applyAcc.applied.length,
   st.patchCalls ++ applyAcc.calls⟩

/-- Body of one job iteration (syncEngine.js lines 68-218): fetch devices and
endpoints (a failure of either is the `catch` branch producing the minimal Job
Result and the `Bool` failure flag), otherwise run the success body. -/
def processJob (env : Env) (opts : SyncOptions) (token : String) (st : RunState)
    (job : SyncJob) : RunState × Bool :=
  match fetchDevices env opts st.cache job with
  | Except.error msg => (jobFailedState st job msg opts.dryRun st.cache, true)
  | Except.ok (entraDevices, cache') =>
    match env.listEndpoints token job.organizationId opts.endpointPageSize with
    | Except.error msg => (jobFailedState st job msg opts.dryRun cache', true)
    | Except.ok endpoints =>
      (jobSuccessState env opts token st job entraDevices cache' endpoints, false)

/-- The job loop (syncEngine.js lines 62-219): sequential, with
`stopOnJobError` breaking after a failed job. -/
def runJobs (env : Env) (opts : SyncOptions) (token : String) :
    List SyncJob → RunState → RunState
  | [], st => st
  | job :: rest, st =>
    if (processJob env opts token st job).2 && opts.stopOnJobError
    then (processJob env opts token st job).1
    else runJobs env opts token rest (processJob env opts token st job).1

/-- The `patchesPlanned` contribution of a Job Result to the summary total
(a failed job carries no such field and contributes zero). -/
def plannedOf : JobResult → Nat
  | .ok r => r.patchesPlanned
  | .failed _ _ _ _ => 0

/-- The `patchesApplied` contribution of a Job Result to the summary total. -/
def appliedOf : JobResult → Nat
  | .ok r => r.patchesApplied
  | .failed _ _ _ _ => 0

/-- The Run Summary returned by `runSync` (syncEngine.js lines 221-227). -/
structure RunSummary where
  dryRun : Bool
  jobs : Nat
  totalPlannedPatches : Nat
  totalAppliedPatches : Nat
  results : List JobResult
  deriving DecidableEq, Repr

/-- syncEngine.js `runSync` (lines 45-234): normalize options, acquire the one
shared platform token (the only rejection that escapes the call), run the job
loop from the empty state, and assemble the summary.  The second component of
the returned pair is the instrumentation trace of `patchManagedEndpoint`
invocations. -/
def runSync (env : Env) (options : SyncOptionsIn) :
    Except String (RunSummary × List PatchCall) :=
  let opts := normalizeOptions options
  match env.getToken with
  | Except.error e => Except.error e
  | Except.ok token =>
    let st := runJobs env opts token env.jobs ⟨[], [], 0, 0, []⟩
    Except.ok
      (⟨opts.dryRun, env.jobs.length, st.totalPlannedPatches, st.totalAppliedPatches,
        st.jobResults⟩, st.patchCalls)

/-! ### Concrete test fixtures (used by witnesses and counterexamples) -/

/-- A sample tenant. -/
def sampleTenant : Tenant := ⟨"T", "tid", "cid"⟩

/-- A sample job: one organization, one mapping from attribute `z` to the
platform attribute `K`. -/
def sampleJob : SyncJob := ⟨sampleTenant, "org1", [⟨some ("z"), some ("K")⟩]⟩

/-- Two devices whose names match the two sample endpoints, each with a
non-blank value for `z`. -/
def sampleDevices : List Device :=
  [⟨some ("a"), [("z", JVal.vStr ("v"))]⟩, ⟨some ("b"), [("z", JVal.vStr ("w"))]⟩]

/-- Two endpoints named `a` and `b`. -/
def sampleEndpoints : List Endpoint :=
  [⟨some ("a"), none, some ("e1")⟩, ⟨some ("b"), none, some ("e2")⟩]

/-- An environment with one job that plans two patches and collaborators that
always succeed. -/
def sampleEnv : Env :=
  ⟨[sampleJob], Except.ok ("tok"), false, fun _ => Except.ok sampleDevices,
   fun _ _ _ => Except.ok sampleEndpoints, fun _ _ _ _ => Except.ok ()⟩

/-- An environment with two jobs whose endpoint listing always throws. -/
def sampleEnvListFail : Env :=
  ⟨[sampleJob, ⟨sampleTenant, "org2", [⟨some ("z"), some ("K")⟩]⟩], Except.ok ("tok"), false,
   fun _ => Except.ok sampleDevices, fun _ _ _ => Except.error ("boom"),
   fun _ _ _ _ => Except.ok ()⟩

/-- The two patch items planned by the `sampleEnv` job. -/
def samplePatchItems : List PatchItem :=
  [⟨some ("e1"), "a", some ("a"), .full, [("custom:K", JVal.vStr ("v"))]⟩,
   ⟨some ("e2"), "b", some ("b"), .full, [("custom:K", JVal.vStr ("w"))]⟩]

/-- The summary of `runSync sampleEnv` with all-default options (dry run). -/
def sampleDrySummary : RunSummary :=
  ⟨true, 1, 2, 0,
   [JobResult.ok ⟨"T", "org1", 2, 2, 2, 0, 0, 2, 2, 0, [], none, true, samplePatchItems⟩]⟩

/-- The successful Job Result of the `maxPatchesPerJob = 1` sample run. -/
def samplePerJobResult : JobOk :=
  ⟨"T", "org1", 2, 2, 2, 0, 0, 2, 1, 0, [], some ("maxPatchesPerJob=1"), true,
   samplePatchItems⟩

/-- The summary of `runSync sampleEnv` with `maxPatchesPerJob = 1` (dry run). -/
def samplePerJobSummary : RunSummary :=
  ⟨true, 1, 2, 0, [JobResult.ok samplePerJobResult]⟩

/-- The summary of `runSync sampleEnvListFail` with default options: both jobs
fail with the minimal Job Result. -/
def sampleListFailSummary : RunSummary :=
  ⟨true, 2, 0, 0,
   [JobResult.failed ("T") ("org1") ("boom") true,
    JobResult.failed ("T") ("org2") ("boom") true]⟩

/-! ### Characterization of the matcher, and claims C1 and C2 -/

theorem foldl_matchStep_spec (eps : List Endpoint) (devs : List Device)
    (acc : MatchResult) :
    devs.foldl (matchStep eps) acc =
      ⟨acc.matched ++ devs.filterMap (matchedOf eps),
       acc.unmatchedEntra ++ devs.filter (isUnmatchedDev eps),
       acc.ambiguous ++ devs.filterMap (ambOf eps)⟩ := by
  induction devs generalizing acc with
  | nil => simp
  | cons d ds ih =>
    rw [List.foldl_cons, ih]
    cases h : classify eps d <;>
      simp [matchStep, matchedOf, ambOf, isUnmatchedDev, h, List.filterMap_cons,
        List.filter_cons]

theorem classify_partition_count (eps : List Endpoint) (devs : List Device) :
    (devs.filterMap (matchedOf eps)).length + (devs.filter (isUnmatchedDev eps)).length
      + (devs.filterMap (ambOf eps)).length = devs.length := by
  induction devs with
  | nil => simp
  | cons d ds ih =>
    cases h : classify eps d <;>
      simp [matchedOf, ambOf, isUnmatchedDev, h, List.filterMap_cons, List.filter_cons] <;>
      omega

theorem matchedOf_entraDevice (eps : List Endpoint) (d : Device) (p : MatchedPair)
    (h : matchedOf eps d = some p) : p.entraDevice = d := by
  rw [matchedOf] at h
  cases hcl : classify eps d <;> rw [hcl] at h <;> simp at h <;> rw [← h]

theorem matchDevices_eq (devs : List Device) (eps : List Endpoint) :
    matchDevices devs eps =
      ⟨devs.filterMap (matchedOf eps), devs.filter (isUnmatchedDev eps),
       devs.filterMap (ambOf eps)⟩ := by
  rw [matchDevices, foldl_matchStep_spec]; rfl

/-- C1: matchDevices is total — the three buckets partition the device list by
count, and a device whose normalized display name is empty is classified
`unmatchedEntra`. -/
theorem matchDevices_total (devs : List Device) (eps : List Endpoint) :
    (matchDevices devs eps).matched.length
        + (matchDevices devs eps).unmatchedEntra.length
        + (matchDevices devs eps).ambiguous.length = devs.length
    ∧ ∀ dev ∈ devs, normalizeName (dev.displayName.getD ("")) = "" →
        dev ∈ (matchDevices devs eps).unmatchedEntra := by
  rw [matchDevices_eq]
  refine ⟨classify_partition_count eps devs, ?_⟩
  intro dev hmem hname
  have hu : isUnmatchedDev eps dev = true := by
    simp [isUnmatchedDev, classify, hname]
  exact List.mem_filter.mpr ⟨hmem, hu⟩

/-- C1 witness: a device with a blank display name in a one-device run is
unmatched, and the counts add up. -/
theorem matchDevices_total_witness :
    (matchDevices [⟨some (" "), []⟩] []).matched.length
        + (matchDevices [⟨some (" "), []⟩] []).unmatchedEntra.length
        + (matchDevices [⟨some (" "), []⟩] []).ambiguous.length = 1
    ∧ (⟨some (" "), []⟩ : Device) ∈ (matchDevices [⟨some (" "), []⟩] []).unmatchedEntra :=
  ⟨(matchDevices_total [⟨some (" "), []⟩] []).1,
   (matchDevices_total [⟨some (" "), []⟩] []).2 ⟨some (" "), []⟩ (by simp) (by decide)⟩

/-- C2: a device whose (nonempty) normalized display name is shared by at
least two endpoints' normalized full names is classified ambiguous with reason
`duplicate_full`, and lands neither in `matched` (so Phase 2 never pairs it)
nor in `unmatchedEntra`. -/
theorem matchDevices_duplicate_full (devs : List Device) (eps : List Endpoint)
    (dev : Device) (hmem : dev ∈ devs)
    (hkey : normalizeName (dev.displayName.getD ("")) ≠ "")
    (hdup : 2 ≤ (eps.filter (fun ep =>
        normalizeName (getAction1EndpointName ep)
          = normalizeName (dev.displayName.getD ("")))).length) :
    (∃ entry ∈ (matchDevices devs eps).ambiguous,
        entry.entraDevice = dev ∧ entry.reason = AmbReason.duplicate_full)
    ∧ (∀ p ∈ (matchDevices devs eps).matched, p.entraDevice ≠ dev)
    ∧ dev ∉ (matchDevices devs eps).unmatchedEntra := by
  have hfull : fullIndexGet eps (normalizeName (dev.displayName.getD ("")))
      = eps.filter (fun ep =>
          normalizeName (getAction1EndpointName ep)
            = normalizeName (dev.displayName.getD (""))) := by
    rw [fullIndexGet, if_neg hkey]
  set L := eps.filter (fun ep =>
      normalizeName (getAction1EndpointName ep)
        = normalizeName (dev.displayName.getD (""))) with hL
  obtain ⟨e1, e2, rest, hshape⟩ : ∃ e1 e2 rest, L = e1 :: e2 :: rest := by
    match hval : L, hdup with
    | e1 :: e2 :: rest, _ => exact ⟨e1, e2, rest, rfl⟩
  have hclass : classify eps dev = Classification.ambFull (e1 :: e2 :: rest) := by
    rw [classify]
    simp only [if_neg hkey, hfull, hshape]
  rw [matchDevices_eq]
  refine ⟨⟨⟨dev, e1 :: e2 :: rest, .duplicate_full⟩, ?_, rfl, rfl⟩, ?_, ?_⟩
  · exact List.mem_filterMap.mpr ⟨dev, hmem, by simp [ambOf, hclass]⟩
  · intro p hp hpd
    obtain ⟨d', hd', hsome⟩ := List.mem_filterMap.mp hp
    have hd'dev : d' = dev := by
      rw [← hpd, matchedOf_entraDevice eps d' p hsome]
    rw [hd'dev] at hsome
    rw [matchedOf, hclass] at hsome
    simp at hsome
  · intro hmemu
    have := (List.mem_filter.mp hmemu).2
    rw [isUnmatchedDev, hclass] at this
    simp at this

/-- C2 witness: device `a` with two endpoints both normalizing to `a`. -/
theorem matchDevices_duplicate_full_witness :
    (∃ entry ∈ (matchDevices [⟨some ("a"), []⟩]
        [⟨some ("a"), none, none⟩, ⟨some ("A"), none, some ("x")⟩]).ambiguous,
        entry.entraDevice = (⟨some ("a"), []⟩ : Device)
          ∧ entry.reason = AmbReason.duplicate_full)
    ∧ (∀ p ∈ (matchDevices [⟨some ("a"), []⟩]
        [⟨some ("a"), none, none⟩, ⟨some ("A"), none, some ("x")⟩]).matched,
        p.entraDevice ≠ (⟨some ("a"), []⟩ : Device))
    ∧ (⟨some ("a"), []⟩ : Device) ∉ (matchDevices [⟨some ("a"), []⟩]
        [⟨some ("a"), none, none⟩, ⟨some ("A"), none, some ("x")⟩]).unmatchedEntra :=
  matchDevices_duplicate_full _ _ _ (by simp) (by decide) (by decide)


/-! ### Patch-builder entry invariants, and claim C6 -/

theorem objInsert_entries (obj : List (String × JVal)) (k : String) (v : JVal)
    (Q : String × JVal → Prop) (hobj : ∀ e ∈ obj, Q e) (hkv : Q (k, v)) :
    ∀ e ∈ objInsert obj k v, Q e := by
  intro e he
  rw [objInsert] at he
  split at he
  · obtain ⟨e', he', heq⟩ := List.mem_map.mp he
    by_cases hk : e'.1 = k
    · rw [if_pos hk] at heq; rw [← heq]; exact hkv
    · rw [if_neg hk] at heq; rw [← heq]; exact hobj e' he'
  · rcases List.mem_append.mp he with h | h
    · exact hobj e h
    · rw [List.mem_singleton] at h; rw [h]; exact hkv

theorem patchStep_entries (dev : Device) (acc : List (String × JVal)) (m : Mapping)
    (Q : String × JVal → Prop) (hacc : ∀ e ∈ acc, Q e)
    (hnew : ∀ v, getProp dev (m.entraProperty.getD ("")) = some v →
        v ≠ JVal.vNull → isBlankStr v = false →
        toCustomKey (m.action1CustomAttribute.getD ("")) ≠ "" →
        Q (toCustomKey (m.action1CustomAttribute.getD ("")), v)) :
    ∀ e ∈ patchStep dev acc m, Q e := by
  intro e he
  simp only [patchStep] at he
  split at he
  · exact hacc e he
  · split at he
    · exact hacc e he
    · exact hacc e he
    · rename_i v hvnull heq
      split at he
      · exact hacc e he
      · split at he
        · exact hacc e he
        · rename_i hblank hkey
          exact objInsert_entries acc _ v Q hacc
            (hnew v heq hvnull (by simpa using hblank) (by simpa using hkey)) e he

theorem foldl_patchStep_entries (dev : Device) (ms : List Mapping)
    (acc : List (String × JVal)) (Q : String × JVal → Prop) (hacc : ∀ e ∈ acc, Q e)
    (hnew : ∀ m ∈ ms, ∀ v, getProp dev (m.entraProperty.getD ("")) = some v →
        v ≠ JVal.vNull → isBlankStr v = false →
        toCustomKey (m.action1CustomAttribute.getD ("")) ≠ "" →
        Q (toCustomKey (m.action1CustomAttribute.getD ("")), v)) :
    ∀ e ∈ ms.foldl (patchStep dev) acc, Q e := by
  induction ms generalizing acc with
  | nil => exact hacc
  | cons m ms ih =>
    rw [List.foldl_cons]
    refine ih _ (patchStep_entries dev acc m Q hacc
      (hnew m (List.mem_cons_self m ms))) ?_
    intro m' hm'
    exact hnew m' (List.mem_cons_of_mem m hm')

theorem objInsert_hasKey_mono (obj : List (String × JVal)) (k : String) (v : JVal)
    (k' : String) (h : ∃ w, (k', w) ∈ obj) : ∃ w, (k', w) ∈ objInsert obj k v := by
  obtain ⟨w, hw⟩ := h
  rw [objInsert]
  split
  · by_cases hk : k' = k
    · exact ⟨v, List.mem_map.mpr ⟨(k', w), hw, by simp [hk]⟩⟩
    · exact ⟨w, List.mem_map.mpr ⟨(k', w), hw, by simp [hk]⟩⟩
  · exact ⟨w, List.mem_append_left _ hw⟩

theorem objInsert_hasKey_self (obj : List (String × JVal)) (k : String) (v : JVal) :
    ∃ w, (k, w) ∈ objInsert obj k v := by
  rw [objInsert]
  split
  · rename_i hany
    obtain ⟨e, he, hek⟩ := List.any_eq_true.mp hany
    exact ⟨v, List.mem_map.mpr ⟨e, he, by simp [of_decide_eq_true hek]⟩⟩
  · exact ⟨v, List.mem_append_right _ (by simp)⟩

theorem patchStep_eq_or (dev : Device) (acc : List (String × JVal)) (m : Mapping) :
    patchStep dev acc m = acc ∨ ∃ k v, patchStep dev acc m = objInsert acc k v := by
  simp only [patchStep]
  split
  · exact Or.inl rfl
  · split
    · exact Or.inl rfl
    · exact Or.inl rfl
    · split
      · exact Or.inl rfl
      · split
        · exact Or.inl rfl
        · exact Or.inr ⟨_, _, rfl⟩

theorem patchStep_hasKey (dev : Device) (acc : List (String × JVal)) (m : Mapping)
    (k : String) (h : ∃ w, (k, w) ∈ acc) : ∃ w, (k, w) ∈ patchStep dev acc m := by
  rcases patchStep_eq_or dev acc m with he | ⟨k', v', he⟩ <;> rw [he]
  · exact h
  · exact objInsert_hasKey_mono acc k' v' k h

theorem foldl_patchStep_hasKey (dev : Device) (ms : List Mapping)
    (acc : List (String × JVal)) (k : String) (h : ∃ w, (k, w) ∈ acc) :
    ∃ w, (k, w) ∈ ms.foldl (patchStep dev) acc := by
  induction ms generalizing acc with
  | nil => exact h
  | cons m ms ih => exact ih _ (patchStep_hasKey dev acc m k h)

theorem patchStep_writes (dev : Device) (acc : List (String × JVal)) (m : Mapping)
    (p a : String) (hp : m.entraProperty = some p) (ha : m.action1CustomAttribute = some a)
    (hpne : p ≠ "") (hane : a ≠ "") (hkey : toCustomKey a ≠ "")
    (v : JVal) (hget : getProp dev p = some v) (hvnull : v ≠ JVal.vNull)
    (hblank : isBlankStr v = false) :
    patchStep dev acc m = objInsert acc (toCustomKey a) v := by
  cases v with
  | vNull => exact absurd rfl hvnull
  | vStr s => simp [patchStep, hp, ha, hpne, hane, hget, hblank, hkey]
  | vNum n => simp [patchStep, hp, ha, hpne, hane, hget, hblank, hkey]
  | vBool b => simp [patchStep, hp, ha, hpne, hane, hget, hblank, hkey]

theorem buildEndpointPatch_eq_some (dev : Device) (ms : List Mapping)
    (patch : List (String × JVal)) (h : buildEndpointPatch dev ms = some patch) :
    patch = ms.foldl (patchStep dev) [] := by
  rw [buildEndpointPatch] at h
  split at h
  · exact (Option.some.inj h).symm
  · exact absurd h (by simp)

theorem buildEndpointPatch_eq_some_of_pos (dev : Device) (ms : List Mapping)
    (h : (ms.foldl (patchStep dev) []).length > 0) :
    buildEndpointPatch dev ms = some (ms.foldl (patchStep dev) []) := by
  rw [buildEndpointPatch, if_pos h]

/-- C6: a built patch never contains a `null`/`undefined` or blank-string
value (no mapping with such a source value is written), while a mapping whose
source value is the number `0` or the boolean `false` (falsy but defined) IS
written: its normalized key appears in the resulting patch, which is
returned non-null. -/
theorem buildEndpointPatch_blank_skip (dev : Device) (mappings : List Mapping) :
    (∀ patch, buildEndpointPatch dev mappings = some patch →
        ∀ e ∈ patch, e.2 ≠ JVal.vNull ∧ ∀ s, e.2 = JVal.vStr s → jsTrim s ≠ "")
    ∧ (∀ m ∈ mappings, ∀ p a,
        m.entraProperty = some p → m.action1CustomAttribute = some a →
        p ≠ "" → a ≠ "" → toCustomKey a ≠ "" →
        (getProp dev p = some (JVal.vNum 0) ∨ getProp dev p = some (JVal.vBool false)) →
        ∃ patch, buildEndpointPatch dev mappings = some patch
          ∧ ∃ v, (toCustomKey a, v) ∈ patch) := by
  constructor
  · intro patch hp e he
    rw [buildEndpointPatch_eq_some dev mappings patch hp] at he
    refine foldl_patchStep_entries dev mappings []
      (fun e => e.2 ≠ JVal.vNull ∧ ∀ s, e.2 = JVal.vStr s → jsTrim s ≠ "")
      (by simp) ?_ e he
    intro m hm v hget hvnull hblank hkey
    refine ⟨hvnull, ?_⟩
    intro s hs
    have hv : v = JVal.vStr s := hs
    rw [hv] at hblank
    simpa [isBlankStr] using hblank
  · intro m hm p a hp ha hpne hane hkey hv01
    obtain ⟨l1, l2, hsplit⟩ := List.append_of_mem hm
    obtain ⟨v, hget, hvnull, hblank⟩ :
        ∃ v, getProp dev p = some v ∧ v ≠ JVal.vNull ∧ isBlankStr v = false := by
      rcases hv01 with h | h
      · exact ⟨_, h, by simp, rfl⟩
      · exact ⟨_, h, by simp, rfl⟩
    have hfold : ∃ w, (toCustomKey a, w) ∈ mappings.foldl (patchStep dev) [] := by
      rw [hsplit, List.foldl_append, List.foldl_cons]
      apply foldl_patchStep_hasKey
      rw [patchStep_writes dev _ m p a hp ha hpne hane hkey v hget hvnull hblank]
      exact objInsert_hasKey_self _ _ _
    obtain ⟨w, hw⟩ := hfold
    exact ⟨_, buildEndpointPatch_eq_some_of_pos dev mappings
      (List.length_pos.mpr (List.ne_nil_of_mem hw)), w, hw⟩

/-- C6 witness: an attribute holding the number 0 is written under its
`custom:`-prefixed key. -/
theorem buildEndpointPatch_blank_skip_witness :
    ∃ patch,
      buildEndpointPatch ⟨some ("d"), [("z", JVal.vNum 0)]⟩ [⟨some ("z"), some ("K")⟩]
        = some patch
      ∧ ∃ v, (toCustomKey ("K"), v) ∈ patch :=
  (buildEndpointPatch_blank_skip ⟨some ("d"), [("z", JVal.vNum 0)]⟩ [⟨some ("z"), some ("K")⟩]).2
    ⟨some ("z"), some ("K")⟩ (by simp) "z" "K" rfl rfl (by decide) (by decide) (by decide)
    (Or.inl (by decide))

/-! ### Trim and custom-key normalization, and claim C9 -/

theorem dropWhile_head?_not {α : Type} (p : α → Bool) (l : List α) (c : α)
    (h : (l.dropWhile p).head? = some c) : p c = false := by
  induction l with
  | nil => simp at h
  | cons a t ih =>
    rw [List.dropWhile_cons] at h
    split at h
    · exact ih h
    · rename_i hpa
      rw [List.head?_cons] at h
      obtain rfl := Option.some.inj h
      simpa using hpa

theorem dropWhile_eq_self_of_head {α : Type} (p : α → Bool) (l : List α)
    (h : ∀ c, l.head? = some c → p c = false) : l.dropWhile p = l := by
  cases l with
  | nil => rfl
  | cons a t =>
    rw [List.dropWhile_cons, if_neg]
    simp [h a rfl]

theorem getLast?_dropWhile {α : Type} (p : α → Bool) (l : List α)
    (h : l.dropWhile p ≠ []) : (l.dropWhile p).getLast? = l.getLast? := by
  induction l with
  | nil => simp at h
  | cons a t ih =>
    rw [List.dropWhile_cons]
    split
    · rename_i hpa
      rw [List.dropWhile_cons, if_pos hpa] at h
      have ht : t ≠ [] := by
        intro he
        rw [he] at h
        simp at h
      rw [ih h]
      exact (List.getLast?_append_of_ne_nil [a] ht).symm
    · rfl

theorem trimChars_head?_not (l : List Char) (c : Char)
    (h : (trimChars l).head? = some c) : c.isWhitespace = false := by
  rw [trimChars, List.head?_reverse] at h
  have hne : (l.dropWhile Char.isWhitespace).reverse.dropWhile Char.isWhitespace ≠ [] := by
    intro he
    rw [he] at h
    simp at h
  rw [getLast?_dropWhile _ _ hne, List.getLast?_reverse] at h
  exact dropWhile_head?_not _ _ _ h

theorem trimChars_getLast?_not (l : List Char) (c : Char)
    (h : (trimChars l).getLast? = some c) : c.isWhitespace = false := by
  rw [trimChars, List.getLast?_reverse] at h
  exact dropWhile_head?_not _ _ _ h

theorem trimChars_fixed_of_ends (l : List Char)
    (hhead : ∀ c, l.head? = some c → c.isWhitespace = false)
    (hlast : ∀ c, l.getLast? = some c → c.isWhitespace = false) :
    trimChars l = l := by
  rw [trimChars, dropWhile_eq_self_of_head _ _ hhead,
    dropWhile_eq_self_of_head _ _ (fun c hc => hlast c (by rwa [List.head?_reverse] at hc)),
    List.reverse_reverse]

theorem trimChars_idem (l : List Char) : trimChars (trimChars l) = trimChars l :=
  trimChars_fixed_of_ends (trimChars l) (trimChars_head?_not l) (trimChars_getLast?_not l)

theorem jsTrim_idem (s : String) : jsTrim (jsTrim s) = jsTrim s := by
  show String.mk (trimChars (trimChars s.toList)) = String.mk (trimChars s.toList)
  rw [trimChars_idem]

theorem string_mk_ne_empty (l : List Char) (h : l ≠ []) : String.mk l ≠ "" := by
  intro he
  exact h (congrArg String.data he)

theorem string_ne_empty_toList (s : String) (h : s ≠ "") : s.toList ≠ [] := by
  intro he
  exact h (congrArg String.mk he)

theorem custom_toLower_fixed :
    ("custom:").toList.map Char.toLower = ("custom:").toList := by
  decide

theorem jsTrim_custom_append (rl : List Char) (hne : rl ≠ [])
    (hlast : ∀ c, rl.getLast? = some c → c.isWhitespace = false) :
    jsTrim (String.mk (("custom:").toList ++ rl)) = String.mk (("custom:").toList ++ rl) := by
  show String.mk (trimChars (("custom:").toList ++ rl)) = _
  rw [trimChars_fixed_of_ends]
  · intro c hc
    have h' : ((("custom:").toList ++ rl).head? : Option Char) = some 'c' := rfl
    rw [h'] at hc
    obtain rfl := Option.some.inj hc.symm
    decide
  · intro c hc
    rw [List.getLast?_append_of_ne_nil _ hne] at hc
    exact hlast c hc

theorem toCustomKey_empty : toCustomKey ("") = "" := by decide

theorem toCustomKey_of_prefixed (s : String) (htrim : jsTrim s = s)
    (hpre : ("custom:").toList.isPrefixOf (s.toList.map Char.toLower) = true) :
    toCustomKey s = s := by
  have hne : s ≠ "" := by
    intro he
    rw [he] at hpre
    simp at hpre
  rw [toCustomKey, htrim, if_neg hne, if_pos hpre]

theorem toCustomKey_prefix (a : String) (h : toCustomKey a ≠ "") :
    ("custom:").toList.isPrefixOf ((toCustomKey a).toList.map Char.toLower) = true := by
  rw [toCustomKey] at h ⊢
  by_cases h0 : jsTrim a = ""
  · rw [if_pos h0] at h
    exact absurd rfl h
  · rw [if_neg h0] at h ⊢
    by_cases h2 : ("custom:").toList.isPrefixOf ((jsTrim a).toList.map Char.toLower) = true
    · rw [if_pos h2]
      exact h2
    · rw [if_neg h2]
      show ("custom:").toList.isPrefixOf
        ((("custom:").toList ++ (jsTrim a).toList).map Char.toLower) = true
      rw [List.map_append, custom_toLower_fixed]
      exact List.isPrefixOf_iff_prefix.mpr (List.prefix_append _ _)

theorem toCustomKey_ne_empty_cases (a : String) :
    toCustomKey a = "" ∨ toCustomKey a = jsTrim a
      ∨ toCustomKey a = String.mk (("custom:").toList ++ (jsTrim a).toList) := by
  rw [toCustomKey]
  by_cases h0 : jsTrim a = ""
  · rw [if_pos h0]
    exact Or.inl rfl
  · rw [if_neg h0]
    by_cases h2 : ("custom:").toList.isPrefixOf ((jsTrim a).toList.map Char.toLower) = true
    · rw [if_pos h2]
      exact Or.inr (Or.inl rfl)
    · rw [if_neg h2]
      exact Or.inr (Or.inr rfl)

theorem toCustomKey_idem (attr : String) :
    toCustomKey (toCustomKey attr) = toCustomKey attr := by
  by_cases h0 : jsTrim attr = ""
  · have h1 : toCustomKey attr = "" := by rw [toCustomKey, if_pos h0]
    rw [h1, toCustomKey_empty]
  · by_cases h2 : ("custom:").toList.isPrefixOf ((jsTrim attr).toList.map Char.toLower) = true
    · have h1 : toCustomKey attr = jsTrim attr := by rw [toCustomKey, if_neg h0, if_pos h2]
      rw [h1]
      exact toCustomKey_of_prefixed (jsTrim attr) (jsTrim_idem attr) h2
    · have h1 : toCustomKey attr = String.mk (("custom:").toList ++ (jsTrim attr).toList) := by
        rw [toCustomKey, if_neg h0, if_neg h2]
      have hrl : (jsTrim attr).toList ≠ [] := string_ne_empty_toList _ h0
      have hlast : ∀ c, (jsTrim attr).toList.getLast? = some c → c.isWhitespace = false :=
        fun c hc => trimChars_getLast?_not attr.toList c hc
      rw [h1]
      apply toCustomKey_of_prefixed
      · exact jsTrim_custom_append _ hrl hlast
      · show ("custom:").toList.isPrefixOf
          ((("custom:").toList ++ (jsTrim attr).toList).map Char.toLower) = true
        rw [List.map_append, custom_toLower_fixed]
        exact List.isPrefixOf_iff_prefix.mpr (List.prefix_append _ _)

/-- C9: custom-key normalization is idempotent; a trimmed name already
beginning with `custom:` in any letter case is returned unchanged; and every
key of a built patch begins, case-insensitively, with `custom:`. -/
theorem toCustomKey_normalization (attr : String) (dev : Device)
    (mappings : List Mapping) :
    toCustomKey (toCustomKey attr) = toCustomKey attr
    ∧ (jsTrim attr = attr →
        ("custom:").toList.isPrefixOf (attr.toList.map Char.toLower) = true →
        toCustomKey attr = attr)
    ∧ (∀ patch, buildEndpointPatch dev mappings = some patch →
        ∀ e ∈ patch,
          ("custom:").toList.isPrefixOf (e.1.toList.map Char.toLower) = true) := by
  refine ⟨toCustomKey_idem attr, toCustomKey_of_prefixed attr, ?_⟩
  intro patch hp e he
  rw [buildEndpointPatch_eq_some dev mappings patch hp] at he
  refine foldl_patchStep_entries dev mappings []
    (fun e => ("custom:").toList.isPrefixOf (e.1.toList.map Char.toLower) = true)
    (by simp) ?_ e he
  intro m hm v hget hvnull hblank hkey
  exact toCustomKey_prefix _ hkey

/-- C9 witness: a key that already carries the prefix is unchanged, and a
concrete built patch carries only `custom:`-prefixed keys. -/
theorem toCustomKey_normalization_witness :
    toCustomKey ("Custom:Foo") = "Custom:Foo"
    ∧ ("custom:").toList.isPrefixOf
        ((toCustomKey ("Bar")).toList.map Char.toLower) = true :=
  ⟨(toCustomKey_normalization ("Custom:Foo") ⟨none, []⟩ []).2.1 (by decide) (by decide),
   by
    have h := (toCustomKey_normalization ("Bar") ⟨some ("d"), [("z", JVal.vNum 1)]⟩
      [⟨some ("z"), some ("Bar")⟩]).2.2
    have hsome : buildEndpointPatch ⟨some ("d"), [("z", JVal.vNum 1)]⟩
        [⟨some ("z"), some ("Bar")⟩] = some [(toCustomKey ("Bar"), JVal.vNum 1)] := by decide
    exact h _ hsome (toCustomKey ("Bar"), JVal.vNum 1) (by simp)⟩

/-! ### Orchestrator machinery -/

theorem runSync_ok_inv (env : Env) (o : SyncOptionsIn) (s : RunSummary)
    (calls : List PatchCall) (h : runSync env o = Except.ok (s, calls)) :
    ∃ token, env.getToken = Except.ok token
      ∧ s = ⟨(normalizeOptions o).dryRun, env.jobs.length,
          (runJobs env (normalizeOptions o) token env.jobs ⟨[], [], 0, 0, []⟩).totalPlannedPatches,
          (runJobs env (normalizeOptions o) token env.jobs ⟨[], [], 0, 0, []⟩).totalAppliedPatches,
          (runJobs env (normalizeOptions o) token env.jobs ⟨[], [], 0, 0, []⟩).jobResults⟩
      ∧ calls = (runJobs env (normalizeOptions o) token env.jobs ⟨[], [], 0, 0, []⟩).patchCalls := by
  rw [runSync] at h
  cases htok : env.getToken with
  | error e =>
    rw [htok] at h
    exact absurd h (by simp)
  | ok token =>
    rw [htok] at h
    simp only [Except.ok.injEq, Prod.mk.injEq] at h
    exact ⟨token, rfl, h.1.symm, h.2.symm⟩

theorem runJobs_invariant (env : Env) (opts : SyncOptions) (token : String)
    (P : RunState → Prop)
    (hstep : ∀ st job, P st → P (processJob env opts token st job).1) :
    ∀ jobs st, P st → P (runJobs env opts token jobs st) := by
  intro jobs
  induction jobs with
  | nil => exact fun st h => h
  | cons job rest ih =>
    intro st h
    rw [runJobs]
    split
    · exact hstep st job h
    · exact ih _ (hstep st job h)

theorem processJob_cases (env : Env) (opts : SyncOptions) (token : String)
    (st : RunState) (job : SyncJob) :
    (∃ msg cache1, processJob env opts token st job
        = (jobFailedState st job msg opts.dryRun cache1, true))
    ∨ (∃ entraDevices cache' endpoints, processJob env opts token st job
        = (jobSuccessState env opts token st job entraDevices cache' endpoints, false)) := by
  rw [processJob]
  split
  · exact Or.inl ⟨_, _, rfl⟩
  · split
    · exact Or.inl ⟨_, _, rfl⟩
    · exact Or.inr ⟨_, _, _, rfl⟩

theorem processJob_length (env : Env) (opts : SyncOptions) (token : String)
    (st : RunState) (job : SyncJob) :
    (processJob env opts token st job).1.jobResults.length
      = st.jobResults.length + 1 := by
  rcases processJob_cases env opts token st job with ⟨msg, c, h⟩ | ⟨d, c, e, h⟩ <;>
    rw [h] <;> simp [jobFailedState, jobSuccessState]

theorem runJobs_length (env : Env) (opts : SyncOptions) (token : String)
    (hstop : opts.stopOnJobError = false) :
    ∀ (jobs : List SyncJob) (st : RunState),
      (runJobs env opts token jobs st).jobResults.length
        = st.jobResults.length + jobs.length := by
  intro jobs
  induction jobs with
  | nil => intro st; rw [runJobs]; rfl
  | cons job rest ih =>
    intro st
    rw [runJobs, hstop]
    simp only [Bool.and_false, Bool.false_eq_true, if_false]
    rw [ih, processJob_length]
    simp only [List.length_cons]
    omega

theorem applyPatches_applied_calls (env : Env) (opts : SyncOptions) (token : String)
    (orgId : String) (ps : List PatchItem) (acc : ApplyAcc)
    (h : acc.applied.length = (acc.calls.filter (fun c => c.ok)).length) :
    (applyPatches env opts token orgId ps acc).applied.length
      = ((applyPatches env opts token orgId ps acc).calls.filter (fun c => c.ok)).length := by
  induction ps generalizing acc with
  | nil => exact h
  | cons p rest ih =>
    rw [applyPatches]
    split
    · split
      · exact h
      · exact ih _ h
    · split
      · exact ih _ h
      · split
        · exact ih _ (by simp [h])
        · split
          · simp [h]
          · exact ih _ (by simp [h])

theorem applyPatches_applied_le (env : Env) (opts : SyncOptions) (token : String)
    (orgId : String) (ps : List PatchItem) (acc : ApplyAcc) :
    (applyPatches env opts token orgId ps acc).applied.length
      ≤ acc.applied.length + ps.length := by
  induction ps generalizing acc with
  | nil => rw [applyPatches]; omega
  | cons p rest ih =>
    rw [applyPatches]
    split
    · split
      · simp only [List.length_cons]; omega
      · refine le_trans (ih _) ?_
        simp only [List.length_cons]; omega
    · split
      · refine le_trans (ih acc) ?_
        simp only [List.length_cons]; omega
      · split
        · refine le_trans (ih _) ?_
          simp only [List.length_cons, List.length_append, List.length_singleton,
            List.length_nil]
          omega
        · split
          · simp only [List.length_cons]; omega
          · refine le_trans (ih _) ?_
            simp only [List.length_cons]; omega

theorem jsSliceTo_length_le {α : Type} (l : List α) (n : Int) (hn : 0 ≤ n) :
    ((jsSliceTo l n).length : Int) ≤ n := by
  rw [jsSliceTo, if_neg (by omega)]
  calc ((l.take n.toNat).length : Int) ≤ (n.toNat : Int) := by
        exact_mod_cast List.length_take_le n.toNat l
    _ = n := Int.toNat_of_nonneg hn

theorem slice_allowed_bound {α : Type} (M : Int) (T : Nat) (X : List α) :
    (T : Int) + (jsSliceTo X (max 0 (M - (T : Int)))).length ≤ max M (T : Int) := by
  have hle := jsSliceTo_length_le X (max 0 (M - (T : Int))) (le_max_left _ _)
  have hm2l : M ≤ max M (T : Int) := le_max_left _ _
  have hm2r : (T : Int) ≤ max M (T : Int) := le_max_right _ _
  rcases max_choice (0 : Int) (M - (T : Int)) with hmax | hmax <;> omega

theorem applyLimits_bound (opts : SyncOptions) (T : Nat) (ps : List PatchItem) :
    (T : Int) + (applyLimits opts T ps).1.length
      ≤ max opts.maxTotalPatches (T : Int) := by
  have hm2l : opts.maxTotalPatches ≤ max opts.maxTotalPatches (T : Int) := le_max_left _ _
  have hm2r : (T : Int) ≤ max opts.maxTotalPatches (T : Int) := le_max_right _ _
  simp only [applyLimits]
  split <;> split
  · exact slice_allowed_bound opts.maxTotalPatches T _
  · rename_i hglobal
    push_neg at hglobal
    omega
  · exact slice_allowed_bound opts.maxTotalPatches T _
  · rename_i hglobal
    push_neg at hglobal
    omega

/-! ### Claims C8, C4 and C10 -/

/-- C8: runSync rejects exactly when the single shared platform token
acquisition (performed before the job loop) fails, and then with that error;
every job-level or patch-level failure is converted into a structured result
entry and a Run Summary is returned. -/
theorem runSync_rejects_iff_token (env : Env) (o : SyncOptionsIn) (e : String) :
    runSync env o = Except.error e ↔ env.getToken = Except.error e := by
  rw [runSync]
  cases htok : env.getToken with
  | error e' => simp
  | ok token => simp

theorem processJob_dry (env : Env) (opts : SyncOptions) (token : String)
    (hdry : opts.dryRun = true) (st : RunState) (job : SyncJob)
    (h : st.patchCalls = []
       ∧ ∀ j, JobResult.ok j ∈ st.jobResults → j.patchesApplied = 0) :
    (processJob env opts token st job).1.patchCalls = []
    ∧ ∀ j, JobResult.ok j ∈ (processJob env opts token st job).1.jobResults →
        j.patchesApplied = 0 := by
  rcases processJob_cases env opts token st job with ⟨msg, c, hpc⟩ | ⟨d, c, e, hpc⟩ <;>
    rw [hpc]
  · refine ⟨h.1, ?_⟩
    intro j hj
    simp only [jobFailedState, List.mem_append, List.mem_singleton] at hj
    rcases hj with hj | hj
    · exact h.2 j hj
    · exact absurd hj (by simp)
  · constructor
    · simp [jobSuccessState, hdry, h.1]
    · intro j hj
      simp only [jobSuccessState, List.mem_append, List.mem_singleton] at hj
      rcases hj with hj | hj
      · exact h.2 j hj
      · obtain rfl := JobResult.ok.inj hj
        simp [hdry]

/-- C4: when `options.dryRun` is `true`, every Job Result has
`patchesApplied = 0` and `patchManagedEndpoint` (`applyEndpointPatch`) is never
invoked: the invocation trace of the run is empty. -/
theorem runSync_dry_run (env : Env) (o : SyncOptionsIn) (hdry : o.dryRun = some true)
    (s : RunSummary) (calls : List PatchCall)
    (h : runSync env o = Except.ok (s, calls)) :
    calls = [] ∧ ∀ j, JobResult.ok j ∈ s.results → j.patchesApplied = 0 := by
  obtain ⟨token, htok, hs, hcalls⟩ := runSync_ok_inv env o s calls h
  have hdry' : (normalizeOptions o).dryRun = true := by
    simp [normalizeOptions, hdry]
  have hinv := runJobs_invariant env (normalizeOptions o) token
    (fun st => st.patchCalls = []
      ∧ ∀ j, JobResult.ok j ∈ st.jobResults → j.patchesApplied = 0)
    (fun st job hst => processJob_dry env _ token hdry' st job hst)
    env.jobs ⟨[], [], 0, 0, []⟩ ⟨rfl, by simp⟩
  subst hs
  subst hcalls
  exact ⟨hinv.1, hinv.2⟩

/-- C4 witness: the all-default dry run of the sample environment. -/
theorem runSync_dry_run_witness :
    ([] : List PatchCall) = []
    ∧ ∀ j, JobResult.ok j ∈ sampleDrySummary.results → j.patchesApplied = 0 :=
  runSync_dry_run sampleEnv ⟨some true, none, none, none, none, none, none⟩ rfl
    sampleDrySummary [] rfl

theorem processJob_sums (env : Env) (opts : SyncOptions) (token : String)
    (st : RunState) (job : SyncJob)
    (h : st.totalPlannedPatches = (st.jobResults.map plannedOf).sum
       ∧ st.totalAppliedPatches = (st.jobResults.map appliedOf).sum) :
    (processJob env opts token st job).1.totalPlannedPatches
      = ((processJob env opts token st job).1.jobResults.map plannedOf).sum
    ∧ (processJob env opts token st job).1.totalAppliedPatches
      = ((processJob env opts token st job).1.jobResults.map appliedOf).sum := by
  rcases processJob_cases env opts token st job with ⟨msg, c, hpc⟩ | ⟨d, c, e, hpc⟩ <;>
    rw [hpc]
  · constructor <;> simp [jobFailedState, plannedOf, appliedOf, h.1, h.2]
  · by_cases hdry : opts.dryRun = true
    · constructor <;> simp [jobSuccessState, plannedOf, appliedOf, hdry, h.1, h.2]
    · constructor <;> simp [jobSuccessState, plannedOf, appliedOf, hdry, h.1, h.2]

/-- C10: the summary's totalPlannedPatches and totalAppliedPatches equal the
sums of patchesPlanned and patchesApplied over all Job Results, failed jobs
contributing zero to both. -/
theorem runSync_summary_sums (env : Env) (o : SyncOptionsIn) (s : RunSummary)
    (calls : List PatchCall) (h : runSync env o = Except.ok (s, calls)) :
    s.totalPlannedPatches = (s.results.map plannedOf).sum
    ∧ s.totalAppliedPatches = (s.results.map appliedOf).sum := by
  obtain ⟨token, htok, hs, hcalls⟩ := runSync_ok_inv env o s calls h
  have hinv := runJobs_invariant env (normalizeOptions o) token
    (fun st => st.totalPlannedPatches = (st.jobResults.map plannedOf).sum
      ∧ st.totalAppliedPatches = (st.jobResults.map appliedOf).sum)
    (fun st job hst => processJob_sums env _ token st job hst)
    env.jobs ⟨[], [], 0, 0, []⟩ ⟨rfl, rfl⟩
  subst hs
  exact ⟨hinv.1, hinv.2⟩

/-- C10 witness: the sample dry run sums 2 planned and 0 applied patches. -/
theorem runSync_summary_sums_witness :
    sampleDrySummary.totalPlannedPatches = (sampleDrySummary.results.map plannedOf).sum
    ∧ sampleDrySummary.totalAppliedPatches
        = (sampleDrySummary.results.map appliedOf).sum :=
  runSync_summary_sums sampleEnv ⟨some true, none, none, none, none, none, none⟩
    sampleDrySummary [] rfl

/-! ### Claim C3 (global limit) -/

theorem processJob_bound (env : Env) (opts : SyncOptions) (token : String)
    (st : RunState) (job : SyncJob)
    (h : ((st.totalAppliedPatches : Int) ≤ max opts.maxTotalPatches 0)
       ∧ st.totalAppliedPatches
           = (st.patchCalls.filter (fun c => c.ok)).length) :
    ((processJob env opts token st job).1.totalAppliedPatches : Int)
        ≤ max opts.maxTotalPatches 0
    ∧ (processJob env opts token st job).1.totalAppliedPatches
        = ((processJob env opts token st job).1.patchCalls.filter
            (fun c => c.ok)).length := by
  rcases processJob_cases env opts token st job with ⟨msg, c, hpc⟩ | ⟨d, c, e, hpc⟩ <;>
    rw [hpc]
  · exact h
  · by_cases hdry : opts.dryRun = true
    · constructor
      · simpa [jobSuccessState, hdry] using h.1
      · simp [jobSuccessState, hdry, h.2]
    · have hlen := applyPatches_applied_le env opts token job.organizationId
        (applyLimits opts st.totalAppliedPatches
          (mapDevicesToPatches d e job.mappings).patches).1 ⟨[], [], []⟩
      simp only [List.length_nil] at hlen
      have hbound := applyLimits_bound opts st.totalAppliedPatches
        (mapDevicesToPatches d e job.mappings).patches
      have hcc := applyPatches_applied_calls env opts token job.organizationId
        (applyLimits opts st.totalAppliedPatches
          (mapDevicesToPatches d e job.mappings).patches).1 ⟨[], [], []⟩ rfl
      have hmaxle : max opts.maxTotalPatches (st.totalAppliedPatches : Int)
          ≤ max opts.maxTotalPatches 0 := max_le (le_max_left _ _) h.1
      constructor
      · have hgoal : ((st.totalAppliedPatches
            + (applyPatches env opts token job.organizationId
                (applyLimits opts st.totalAppliedPatches
                  (mapDevicesToPatches d e job.mappings).patches).1
                ⟨[], [], []⟩).applied.length : Nat) : Int)
            ≤ max opts.maxTotalPatches 0 := by
          push_cast
          omega
        simpa [jobSuccessState, hdry] using hgoal
      · have hgoal2 : st.totalAppliedPatches
            + (applyPatches env opts token job.organizationId
                (applyLimits opts st.totalAppliedPatches
                  (mapDevicesToPatches d e job.mappings).patches).1
                ⟨[], [], []⟩).applied.length
            = ((st.patchCalls ++ (applyPatches env opts token job.organizationId
                (applyLimits opts st.totalAppliedPatches
                  (mapDevicesToPatches d e job.mappings).patches).1
                ⟨[], [], []⟩).calls).filter (fun c => c.ok)).length := by
          rw [List.filter_append, List.length_append]
          omega
        simpa [jobSuccessState, hdry] using hgoal2

/-- C3 amended: in every run, the cross-job total of applied patches never
exceeds `max maxTotalPatches 0` — hence never exceeds `maxTotalPatches`
whenever that limit is nonnegative (as the default 200 is) — and the global
counter equals the number of successful dispatches to the platform, so dry-run
counts never enter it. -/
theorem runSync_global_limit (env : Env) (o : SyncOptionsIn) (s : RunSummary)
    (calls : List PatchCall) (h : runSync env o = Except.ok (s, calls)) :
    ((s.totalAppliedPatches : Int) ≤ max (normalizeOptions o).maxTotalPatches 0)
    ∧ (0 ≤ (normalizeOptions o).maxTotalPatches →
        (s.totalAppliedPatches : Int) ≤ (normalizeOptions o).maxTotalPatches)
    ∧ s.totalAppliedPatches = (calls.filter (fun c => c.ok)).length := by
  obtain ⟨token, htok, hs, hcalls⟩ := runSync_ok_inv env o s calls h
  have hinv := runJobs_invariant env (normalizeOptions o) token
    (fun st => ((st.totalAppliedPatches : Int)
          ≤ max (normalizeOptions o).maxTotalPatches 0)
      ∧ st.totalAppliedPatches = (st.patchCalls.filter (fun c => c.ok)).length)
    (fun st job hst => processJob_bound env _ token st job hst)
    env.jobs ⟨[], [], 0, 0, []⟩ ⟨by simp, rfl⟩
  subst hs
  subst hcalls
  refine ⟨hinv.1, fun hM => ?_, hinv.2⟩
  have h1 := hinv.1
  rw [max_eq_left hM] at h1
  exact h1

/-- C3 counterexample: with `maxTotalPatches = -1` the single planned patch is
truncated away before the apply phase, yet the cross-job total of applied
patches (0) still exceeds `maxTotalPatches` (-1) — the bound of the claim, as
stated, fails for a negative limit. -/
theorem runSync_global_limit_counterexample :
    (normalizeOptions
        ⟨some false, none, none, some (-1), none, none, none⟩).maxTotalPatches = -1
    ∧ (runSync sampleEnv
          ⟨some false, none, none, some (-1), none, none, none⟩).toOption.map
        (fun p => (p.1.totalPlannedPatches, p.1.totalAppliedPatches)) = some (2, 0)
    ∧ ¬((0 : Int) ≤ -1) :=
  ⟨rfl, by decide, by decide⟩

/-- C3 witness: the sample dry run keeps the applied total (0) within the
default limit 200, and it equals the number of successful dispatches. -/
theorem runSync_global_limit_witness :
    ((sampleDrySummary.totalAppliedPatches : Int)
        ≤ max (normalizeOptions ⟨some true, none, none, none, none, none, none⟩).maxTotalPatches 0)
    ∧ (0 ≤ (normalizeOptions ⟨some true, none, none, none, none, none, none⟩).maxTotalPatches →
        (sampleDrySummary.totalAppliedPatches : Int)
          ≤ (normalizeOptions ⟨some true, none, none, none, none, none, none⟩).maxTotalPatches)
    ∧ sampleDrySummary.totalAppliedPatches
        = (([] : List PatchCall).filter (fun c => c.ok)).length :=
  runSync_global_limit sampleEnv ⟨some true, none, none, none, none, none, none⟩
    sampleDrySummary [] rfl

/-! ### Claim C5 (per-job limit) -/

theorem jsSliceTo_nonneg {α : Type} (l : List α) (n : Int) (hn : 0 ≤ n) :
    jsSliceTo l n = l.take n.toNat := by
  rw [jsSliceTo, if_neg (by omega)]

theorem applyLimits_perJob (opts : SyncOptions) (T : Nat) (ps : List PatchItem)
    (hpj : 0 ≤ opts.maxPatchesPerJob)
    (hgt : opts.maxPatchesPerJob < (ps.length : Int)) :
    (applyLimits opts T ps).1.length ≤ opts.maxPatchesPerJob.toNat
    ∧ ((applyLimits opts T ps).1.length = opts.maxPatchesPerJob.toNat
        ∧ (applyLimits opts T ps).2
            = some (("maxPatchesPerJob=") ++ toString opts.maxPatchesPerJob)
      ∨ (applyLimits opts T ps).2
          = some ((("maxPatchesPerJob=") ++ toString opts.maxPatchesPerJob)
              ++ (", maxTotalPatches=") ++ toString opts.maxTotalPatches)) := by
  have hcond : (ps.length : Int) > opts.maxPatchesPerJob := hgt
  have htake : (ps.take opts.maxPatchesPerJob.toNat).length
      = opts.maxPatchesPerJob.toNat := by
    rw [List.length_take]
    omega
  simp only [applyLimits, if_pos hcond, jsSliceTo_nonneg ps opts.maxPatchesPerJob hpj]
  split
  · constructor
    · rw [jsSliceTo_nonneg _ _ (le_max_left _ _), List.length_take, htake]
      exact min_le_right _ _
    · right
      rfl
  · exact ⟨le_of_eq htake, Or.inl ⟨htake, rfl⟩⟩

theorem processJob_perJob (env : Env) (opts : SyncOptions) (token : String)
    (hpj : 0 ≤ opts.maxPatchesPerJob) (st : RunState) (job : SyncJob)
    (h : ∀ j, JobResult.ok j ∈ st.jobResults →
        j.patchesPlanned > opts.maxPatchesPerJob.toNat →
        j.patchesToProcess ≤ opts.maxPatchesPerJob.toNat
        ∧ (j.patchesToProcess = opts.maxPatchesPerJob.toNat
            ∧ j.limitedBy = some (("maxPatchesPerJob=") ++ toString opts.maxPatchesPerJob)
          ∨ j.limitedBy = some ((("maxPatchesPerJob=") ++ toString opts.maxPatchesPerJob)
              ++ (", maxTotalPatches=") ++ toString opts.maxTotalPatches))) :
    ∀ j, JobResult.ok j ∈ (processJob env opts token st job).1.jobResults →
        j.patchesPlanned > opts.maxPatchesPerJob.toNat →
        j.patchesToProcess ≤ opts.maxPatchesPerJob.toNat
        ∧ (j.patchesToProcess = opts.maxPatchesPerJob.toNat
            ∧ j.limitedBy = some (("maxPatchesPerJob=") ++ toString opts.maxPatchesPerJob)
          ∨ j.limitedBy = some ((("maxPatchesPerJob=") ++ toString opts.maxPatchesPerJob)
              ++ (", maxTotalPatches=") ++ toString opts.maxTotalPatches)) := by
  rcases processJob_cases env opts token st job with ⟨msg, c, hpc⟩ | ⟨d, c, e, hpc⟩ <;>
    rw [hpc] <;> intro j hj
  · simp only [jobFailedState, List.mem_append, List.mem_singleton] at hj
    rcases hj with hj | hj
    · exact h j hj
    · exact absurd hj (by simp)
  · simp only [jobSuccessState, List.mem_append, List.mem_singleton] at hj
    rcases hj with hj | hj
    · exact h j hj
    · obtain rfl := JobResult.ok.inj hj
      intro hgt'
      have hgt'' : (mapDevicesToPatches d e job.mappings).patches.length
          > opts.maxPatchesPerJob.toNat := hgt'
      have hgt : opts.maxPatchesPerJob
          < ((mapDevicesToPatches d e job.mappings).patches.length : Int) := by
        omega
      exact applyLimits_perJob opts st.totalAppliedPatches
        (mapDevicesToPatches d e job.mappings).patches hpj hgt

/-- C5 amended: for every job whose planned patch list exceeds a nonnegative
maxPatchesPerJob, at most maxPatchesPerJob patches are processed; exactly
maxPatchesPerJob are processed with `limitedBy = "maxPatchesPerJob=N"` unless
the global limit also truncated the job, in which case `limitedBy` is
`"maxPatchesPerJob=N, maxTotalPatches=M"`. -/
theorem runSync_per_job_limit (env : Env) (o : SyncOptionsIn)
    (hpj : 0 ≤ (normalizeOptions o).maxPatchesPerJob) (s : RunSummary)
    (calls : List PatchCall) (h : runSync env o = Except.ok (s, calls)) :
    ∀ j, JobResult.ok j ∈ s.results →
      j.patchesPlanned > (normalizeOptions o).maxPatchesPerJob.toNat →
      j.patchesToProcess ≤ (normalizeOptions o).maxPatchesPerJob.toNat
      ∧ (j.patchesToProcess = (normalizeOptions o).maxPatchesPerJob.toNat
          ∧ j.limitedBy = some (("maxPatchesPerJob=")
              ++ toString (normalizeOptions o).maxPatchesPerJob)
        ∨ j.limitedBy = some ((("maxPatchesPerJob=")
              ++ toString (normalizeOptions o).maxPatchesPerJob)
            ++ (", maxTotalPatches=")
            ++ toString (normalizeOptions o).maxTotalPatches)) := by
  obtain ⟨token, htok, hs, hcalls⟩ := runSync_ok_inv env o s calls h
  have hinv := runJobs_invariant env (normalizeOptions o) token
    (fun st => ∀ j, JobResult.ok j ∈ st.jobResults →
      j.patchesPlanned > (normalizeOptions o).maxPatchesPerJob.toNat →
      j.patchesToProcess ≤ (normalizeOptions o).maxPatchesPerJob.toNat
      ∧ (j.patchesToProcess = (normalizeOptions o).maxPatchesPerJob.toNat
          ∧ j.limitedBy = some (("maxPatchesPerJob=")
              ++ toString (normalizeOptions o).maxPatchesPerJob)
        ∨ j.limitedBy = some ((("maxPatchesPerJob=")
              ++ toString (normalizeOptions o).maxPatchesPerJob)
            ++ (", maxTotalPatches=")
            ++ toString (normalizeOptions o).maxTotalPatches)))
    (fun st job hst => processJob_perJob env _ token hpj st job hst)
    env.jobs ⟨[], [], 0, 0, []⟩ (by simp)
  subst hs
  exact hinv

/-- C5 counterexample: with maxPatchesPerJob=1 and maxTotalPatches=0, a job
planning 2 patches (exceeding the per-job limit) processes 0 patches, not
exactly maxPatchesPerJob = 1 as the claim states: the global limit truncates
further. -/
theorem runSync_per_job_limit_counterexample :
    (runSync sampleEnv ⟨some true, none, some 1, some 0, none, none, none⟩).toOption.map
        (fun p => p.1.results.map (fun r =>
          match r with
          | JobResult.ok j => (j.patchesPlanned, j.patchesToProcess, j.limitedBy)
          | JobResult.failed _ _ _ _ => (0, 0, none)))
      = some [(2, 0, some ("maxPatchesPerJob=1, maxTotalPatches=0"))]
    ∧ (normalizeOptions
        ⟨some true, none, some 1, some 0, none, none, none⟩).maxPatchesPerJob = 1
    ∧ ¬((0 : Nat) = 1) :=
  ⟨by decide, rfl, by decide⟩

/-- C5 witness: with maxPatchesPerJob=1 and the default global limit, the
sample job planning 2 patches processes exactly 1 and records
`maxPatchesPerJob=1`. -/
theorem runSync_per_job_limit_witness :
    samplePerJobResult.patchesToProcess
        ≤ (normalizeOptions
            ⟨some true, none, some 1, none, none, none, none⟩).maxPatchesPerJob.toNat
    ∧ (samplePerJobResult.patchesToProcess
          = (normalizeOptions
              ⟨some true, none, some 1, none, none, none, none⟩).maxPatchesPerJob.toNat
        ∧ samplePerJobResult.limitedBy
            = some (("maxPatchesPerJob=") ++ toString (normalizeOptions
                ⟨some true, none, some 1, none, none, none, none⟩).maxPatchesPerJob)
      ∨ samplePerJobResult.limitedBy
          = some ((("maxPatchesPerJob=") ++ toString (normalizeOptions
                ⟨some true, none, some 1, none, none, none, none⟩).maxPatchesPerJob)
              ++ (", maxTotalPatches=") ++ toString (normalizeOptions
                ⟨some true, none, some 1, none, none, none, none⟩).maxTotalPatches)) :=
  runSync_per_job_limit sampleEnv ⟨some true, none, some 1, none, none, none, none⟩
    (by decide) samplePerJobSummary [] rfl samplePerJobResult
    (by simp [samplePerJobSummary]) (by decide)

/-! ### Claim C7 (error isolation) -/

theorem processJob_error (env : Env) (opts : SyncOptions) (token : String)
    (st : RunState) (job : SyncJob) (msg : String)
    (h : fetchDevices env opts st.cache job = Except.error msg
      ∨ ∃ ds c, fetchDevices env opts st.cache job = Except.ok (ds, c)
          ∧ env.listEndpoints token job.organizationId opts.endpointPageSize
              = Except.error msg) :
    (processJob env opts token st job).1.jobResults
      = st.jobResults
          ++ [JobResult.failed job.tenant.name job.organizationId msg opts.dryRun] := by
  rcases h with h | ⟨ds, c, h1, h2⟩
  · simp [processJob, h, jobFailedState]
  · simp [processJob, h1, h2, jobFailedState]

/-- C7: a job whose directory fetch or endpoint listing throws appends exactly
the minimal Job Result `{tenantName, organizationId, error, dryRun}`, and with
`stopOnJobError = false` every job still executes: the summary carries one Job
Result per configured job. -/
theorem runSync_error_isolation (env : Env) (o : SyncOptionsIn) :
    (∀ (token : String) (st : RunState) (job : SyncJob) (msg : String),
      (fetchDevices env (normalizeOptions o) st.cache job = Except.error msg
        ∨ ∃ ds c, fetchDevices env (normalizeOptions o) st.cache job = Except.ok (ds, c)
            ∧ env.listEndpoints token job.organizationId
                (normalizeOptions o).endpointPageSize = Except.error msg) →
      (processJob env (normalizeOptions o) token st job).1.jobResults
        = st.jobResults
            ++ [JobResult.failed job.tenant.name job.organizationId msg
                  (normalizeOptions o).dryRun])
    ∧ ((normalizeOptions o).stopOnJobError = false →
        ∀ s calls, runSync env o = Except.ok (s, calls) →
          s.results.length = env.jobs.length) := by
  constructor
  · intro token st job msg h
    exact processJob_error env (normalizeOptions o) token st job msg h
  · intro hstop s calls h
    obtain ⟨token, htok, hs, hcalls⟩ := runSync_ok_inv env o s calls h
    subst hs
    have hlen := runJobs_length env (normalizeOptions o) token hstop env.jobs
      ⟨[], [], 0, 0, []⟩
    simpa using hlen

/-- C7 witness: in the environment whose endpoint listing always throws, the
first job appends the minimal failed result, and with the default
stopOnJobError=false both jobs still execute, yielding two Job Results. -/
theorem runSync_error_isolation_witness :
    (processJob sampleEnvListFail
        (normalizeOptions ⟨some true, none, none, none, none, none, none⟩) ("tok")
        ⟨[], [], 0, 0, []⟩ sampleJob).1.jobResults
      = [] ++ [JobResult.failed sampleJob.tenant.name sampleJob.organizationId ("boom")
          (normalizeOptions ⟨some true, none, none, none, none, none, none⟩).dryRun]
    ∧ sampleListFailSummary.results.length = sampleEnvListFail.jobs.length :=
  ⟨(runSync_error_isolation sampleEnvListFail
      ⟨some true, none, none, none, none, none, none⟩).1 ("tok") ⟨[], [], 0, 0, []⟩
      sampleJob ("boom")
      (Or.inr ⟨sampleDevices, [(("tid:cid"), sampleDevices)], rfl, rfl⟩),
   (runSync_error_isolation sampleEnvListFail
      ⟨some true, none, none, none, none, none, none⟩).2 (by decide)
      sampleListFailSummary [] rfl⟩

end Sync
